import Mathlib

/-!
Verification of the TLS record fragmentation writer
(`transport/tls-record-frag/writer.go`) and the Shadowsocks prefix parsing
(`x/config/shadowsocks.go`).

The Go code is shallowly embedded: byte slices become `List Nat`, the
`io.Writer` sink is modelled by the response `(n, err)` it gives to each
`Write` call, and an `io.Reader` source is a list of bytes optionally
followed by a terminal error.  A Go runtime panic (out-of-range slice) is
modelled by `Option.none`.
-/

namespace TlsRecordFrag

/-- A byte of the stream.  Go `byte`; values are below 256 whenever they
come from real Go slices, but nothing in the model depends on that bound. -/
abbrev Byte := Nat

/-- Abstract I/O errors.  `eof` and `unexpectedEof` are `io.EOF` and
`io.ErrUnexpectedEOF` as produced by `io.ReadFull`; `shortWrite` is
`io.ErrShortWrite` as produced by `io.Copy`; `other k` stands for any other
distinct error value, so that "the error is surfaced unchanged" is
expressible. -/
inductive Err where
  | eof
  | unexpectedEof
  | shortWrite
  | other (k : Nat)
deriving DecidableEq, Repr

/-- The response one `Write` call on the underlying sink gives:
the accepted byte count `n` and the returned error. -/
structure SinkResp where
  n : Nat
  err : Option Err
deriving DecidableEq, Repr

/-- Two's-complement wrap-around of Go `int32` arithmetic:
`wrap32 x = ((x + 2^31) mod 2^32) - 2^31`. -/
def wrap32 (x : Int) : Int := (x + 2147483648) % 4294967296 - 2147483648

/-- `binary.BigEndian.Uint16` on two bytes (widened to `int32` at both call
sites of the source). -/
def u16be (b0 b1 : Byte) : Int := (b0 : Int) * 256 + (b1 : Int)

/-- `binary.BigEndian.PutUint16` of `uint16(v)`: the conversion of the
(always non-negative here) `int32` value truncates modulo 2^16, then the
two bytes are stored big-endian. -/
def putU16 (v : Int) : List Byte := [(v % 65536).toNat / 256, (v % 65536).toNat % 256]

/-- Go slicing `l[lo:hi]`: defined when `0 ≤ lo ≤ hi ≤ len l`, a runtime
panic (`none`) otherwise. -/
def goSlice (l : List Byte) (lo hi : Int) : Option (List Byte) :=
  if 0 ≤ lo ∧ lo ≤ hi ∧ hi ≤ (l.length : Int) then
    some ((l.drop lo.toNat).take (hi - lo).toNat)
  else none

/-- Go slicing `l[lo:]`. -/
def goSliceFrom (l : List Byte) (lo : Int) : Option (List Byte) :=
  goSlice l lo l.length

/-- `binary.BigEndian.Uint16(b)`: panics unless `b` has at least 2 bytes. -/
def goUint16be (b : List Byte) : Option Int :=
  if 2 ≤ b.length then some (u16be (b.getD 0 0) (b.getD 1 0)) else none

/-- `maxRecordLength = 1 << 14` of the source. -/
def maxRecordLength : Int := 16384

/-- `typeHandshake = 22` of the source. -/
def typeHandshake : Byte := 22

/-- What one push-mode `Write` call did: the byte sequences passed to the
underlying sink, the `(written, err)` pair returned to the caller, and the
value of the `prefixBytes` field afterwards. -/
structure PushOut where
  chunks : List (List Byte)
  ret : Int
  err : Option Err
  prefixBytes' : Int
deriving DecidableEq, Repr

/-- One call of `(*tlsRecordFragWriter).Write` (writer.go lines 96-141),
given the current `prefixBytes` field, the caller's buffer `data` and the
sink's response to the single downstream write the call makes.
`none` models the Go runtime panic raised by an out-of-range slice
(`remainder[w.prefixBytes:recordLength]` when `prefixBytes > recordLength`).

Source correspondence: `length := int32(len(data))` wraps, as does
`w.prefixBytes+5`; `data[3:]`, `data[5:]` and the two `remainder`
slicings go through `goSlice`; the split buffer `buf` is assembled exactly
as the sequence of `copy`/`PutUint16` calls tiles it (offsets 0, 3, 5,
`5+prefixBytes`, `8+prefixBytes`, `10+prefixBytes`, `10+recordLength`). -/
def writePush (prefixBytes : Int) (data : List Byte) (resp : SinkResp) : Option PushOut :=
  if 0 < prefixBytes then
    let length : Int := wrap32 data.length
    if wrap32 (prefixBytes + 5) ≥ length then
      some ⟨[data], (resp.n : Int), resp.err, 0⟩
    else do
      let lengthField ← goSliceFrom data 3
      let recordLength ← goUint16be lengthField
      let remainder ← goSliceFrom data 5
      let remainderLength : Int := length - 5
      -- hasPartialRecord = recordLength > remainderLength
      -- hasMultipleRecords = recordLength < remainderLength
      -- isRecordOverflow = recordLength > maxRecordLength
      if data.getD 0 0 ≠ typeHandshake ∨ recordLength > remainderLength ∨
          prefixBytes = recordLength ∨ recordLength > maxRecordLength then
        some ⟨[data], (resp.n : Int), resp.err, 0⟩
      else do
        let header := data.take 3
        let record1 ← goSlice remainder 0 prefixBytes
        let record2 ← goSlice remainder prefixBytes recordLength
        let buf := header ++ putU16 prefixBytes ++ record1 ++
          header ++ putU16 (record2.length : Int) ++ record2 ++
          (if recordLength < remainderLength then remainder.drop recordLength.toNat else [])
        let w1 : Int := if (resp.n : Int) ≥ 5 then (resp.n : Int) - 5 else (resp.n : Int)
        some ⟨[buf], w1, resp.err, 0⟩
  else
    some ⟨[data], (resp.n : Int), resp.err, prefixBytes⟩

/-- A sequence of push-mode `Write` calls on one writer instance, threading
the `prefixBytes` state; each element pairs the caller's buffer with the
sink's response to that call. -/
def writePushSeq (prefixBytes : Int) : List (List Byte × SinkResp) → Option (List PushOut)
  | [] => some []
  | c :: rest => do
    let o ← writePush prefixBytes c.1 c.2
    let os ← writePushSeq o.prefixBytes' rest
    pure (o :: os)

/-- A pull-mode byte source: the bytes it will yield in order, then
either a clean end of stream (`tailErr = none`, i.e. `io.EOF`) or the
given error. -/
structure Source where
  bytes : List Byte
  tailErr : Option Err
deriving DecidableEq, Repr

/-- `io.ReadFull(src, buf)` for a buffer of `m` bytes: all of `m` bytes or
an error.  A short read converts a clean end of stream into `io.EOF`
(nothing read) or `io.ErrUnexpectedEOF` (something read); a source error is
passed through. -/
def readFull (src : Source) (m : Nat) : Except Err (List Byte × Source) :=
  if m ≤ src.bytes.length then
    .ok (src.bytes.take m, ⟨src.bytes.drop m, src.tailErr⟩)
  else
    .error (src.tailErr.getD (if src.bytes.isEmpty then .eof else .unexpectedEof))

/-- `io.Copy(sink, src)`: (chunks passed to the sink, returned count,
returned error).  The model lets the source yield all its bytes as one
read, so the sink sees at most one chunk; `resp` is the sink's response to
it.  A write error or short write stops the copy with that error;
otherwise the count is the full length and the source's terminal error
(nil for end of stream) is returned. -/
def copyModel (src : Source) (resp : SinkResp) : List (List Byte) × Int × Option Err :=
  if src.bytes.isEmpty then ([], 0, src.tailErr)
  else
    match resp.err with
    | some e => ([src.bytes], (resp.n : Int), some e)
    | none =>
      if resp.n = src.bytes.length then ([src.bytes], (resp.n : Int), src.tailErr)
      else ([src.bytes], (resp.n : Int), some .shortWrite)

/-- What one pull-mode `ReadFrom` call did, in the same shape as
`PushOut`; `ret` is the `int64` count returned. -/
structure PullOut where
  chunks : List (List Byte)
  ret : Int
  err : Option Err
  prefixBytes' : Int
deriving DecidableEq, Repr

/-- `(*tlsRecordFragWriter).dontFrag` (writer.go lines 35-45): write the
already-read bytes `first`, disarm, then copy the rest of the source.
`respW` answers the write of `first`, `respC` the copy's write. -/
def dontFrag (first : List Byte) (src : Source) (respW respC : SinkResp) : PullOut :=
  if respW.err.isSome then ⟨[first], (respW.n : Int), respW.err, 0⟩
  else
    let c := copyModel src respC
    ⟨[first] ++ c.1, (respW.n : Int) + c.2.1, c.2.2, 0⟩

/-- One call of `(*tlsRecordFragWriter).ReadFrom` (writer.go lines 47-94),
given the current `prefixBytes` field, the source, and the sink's responses
`respW` (first direct write: the header in `dontFrag`, or the assembled
split buffer) and `respC` (the `io.Copy` stage's write).

Note the header-read failure branch (source lines 51-53) returns without
touching `prefixBytes`. -/
def readFrom (prefixBytes : Int) (src : Source) (respW respC : SinkResp) : PullOut :=
  if 0 < prefixBytes then
    match readFull src 5 with
    | .error e => ⟨[], 0, some e, prefixBytes⟩
    | .ok (recordHeader, src1) =>
      let recordLength : Int := u16be (recordHeader.getD 3 0) (recordHeader.getD 4 0)
      if recordHeader.getD 0 0 ≠ typeHandshake ∨ prefixBytes ≥ recordLength then
        dontFrag recordHeader src1 respW respC
      else if recordLength > maxRecordLength then
        dontFrag recordHeader src1 respW respC
      else
        let header := recordHeader.take 3
        match readFull src1 prefixBytes.toNat with
        | .error e => ⟨[], 0, some e, 0⟩
        | .ok (record1, src2) =>
          match readFull src2 (recordLength - prefixBytes).toNat with
          | .error e => ⟨[], 0, some e, 0⟩
          | .ok (record2, src3) =>
            let buf := header ++ putU16 prefixBytes ++ record1 ++
              header ++ putU16 (recordLength - prefixBytes) ++ record2
            let tmp : Int := if (respW.n : Int) ≥ 5 then (respW.n : Int) - 5 else (respW.n : Int)
            if respW.err.isSome then ⟨[buf], tmp, respW.err, 0⟩
            else
              let c := copyModel src3 respC
              ⟨[buf] ++ c.1, tmp + c.2.1, c.2.2, 0⟩
  else
    let c := copyModel src respC
    ⟨c.1, c.2.1, c.2.2, prefixBytes⟩

/-- The record-length field of a buffer or source that starts with a
5-byte record header: `binary.BigEndian.Uint16` of bytes 3 and 4. -/
def recLenOf (bytes : List Byte) : Int := u16be (bytes.getD 3 0) (bytes.getD 4 0)

/-- Eligibility of a push-mode buffer for splitting: exactly the conditions
under which `Write` takes its fragmentation path (and returns): armed,
buffer longer than `prefixBytes+5`, handshake type, full record present,
offset strictly inside the record, record not oversized. -/
def eligPush (prefixBytes : Int) (data : List Byte) : Prop :=
  0 < prefixBytes ∧ prefixBytes + 5 < (data.length : Int) ∧
  data.getD 0 0 = typeHandshake ∧ recLenOf data ≤ (data.length : Int) - 5 ∧
  prefixBytes < recLenOf data ∧ recLenOf data ≤ maxRecordLength

instance (p : Int) (data : List Byte) : Decidable (eligPush p data) := by
  unfold eligPush; infer_instance

/-- The split output `Write` builds when the buffer is eligible: first
header with length field `prefixBytes`, first payload slice, duplicate
header with length field `recordLength - prefixBytes`, second payload
slice, then any trailing bytes past the record, verbatim. -/
def pushBuf (prefixBytes : Int) (data : List Byte) : List Byte :=
  data.take 3 ++ putU16 prefixBytes ++ (data.drop 5).take prefixBytes.toNat ++
  data.take 3 ++ putU16 (recLenOf data - prefixBytes) ++
  ((data.drop 5).drop prefixBytes.toNat).take (recLenOf data - prefixBytes).toNat ++
  (data.drop 5).drop (recLenOf data).toNat

/-- The split buffer `ReadFrom` assembles when the record is eligible
(no trailing bytes: pull mode reads exactly the record). -/
def pullBuf (prefixBytes : Int) (bytes : List Byte) : List Byte :=
  bytes.take 3 ++ putU16 prefixBytes ++ (bytes.drop 5).take prefixBytes.toNat ++
  bytes.take 3 ++ putU16 (recLenOf bytes - prefixBytes) ++
  (bytes.drop (5 + prefixBytes.toNat)).take (recLenOf bytes - prefixBytes).toNat

/-- Header eligibility in pull mode: the conditions on the 5 header bytes
under which `ReadFrom` commits to splitting rather than `dontFrag`. -/
def eligPullHeader (prefixBytes : Int) (bytes : List Byte) : Prop :=
  bytes.getD 0 0 = typeHandshake ∧ prefixBytes < recLenOf bytes ∧
  recLenOf bytes ≤ maxRecordLength

instance (p : Int) (bytes : List Byte) : Decidable (eligPullHeader p bytes) := by
  unfold eligPullHeader; infer_instance

end TlsRecordFrag

namespace SSConfig

/-- The rune loop of `parseStringPrefix` (shadowsocks.go lines 95-100):
each rune must satisfy `r & 0xFF == r`; the produced byte is `byte(r)`,
i.e. the rune's code point.  The first out-of-range rune aborts with an
error (`none`). -/
def parseStringPrefixLoop : List Char → Option (List Nat)
  | [] => some []
  | r :: rest =>
    if r.toNat &&& 0xFF = r.toNat then (parseStringPrefixLoop rest).map (r.toNat :: ·)
    else none

/-- `parseStringPrefix` (shadowsocks.go lines 92-102): decode the UTF-8
string into runes (`Lean strings are sequences of code points, as Go's
[]rune conversion produces for valid UTF-8`) and map each rune to one
byte. -/
def parseStringPrefix (utf8Str : String) : Option (List Nat) :=
  parseStringPrefixLoop utf8Str.data

/-- The prefix-handling fragment of `parseShadowsocksURL` (shadowsocks.go
lines 82-88), given that all earlier steps succeeded: outer `none` is the
whole URL parse failing, `some p` is success with prefix field `p`
(empty when the query parameter is empty). -/
def prefixFieldOfQuery (prefixStr : String) : Option (Option (List Nat)) :=
  if 0 < prefixStr.length then
    match parseStringPrefix prefixStr with
    | none => none
    | some b => some (some b)
  else some none

end SSConfig

open TlsRecordFrag SSConfig

/-! ## Supporting lemmas -/

lemma wrap32_eq_of {x : Int} (h1 : -2147483648 ≤ x) (h2 : x < 2147483648) :
    wrap32 x = x := by
  unfold wrap32
  rw [Int.emod_eq_of_lt (by omega) (by omega)]
  omega

lemma goSlice_some {l : List Byte} {lo hi : Int} (h0 : 0 ≤ lo) (h1 : lo ≤ hi)
    (h2 : hi ≤ (l.length : Int)) :
    goSlice l lo hi = some ((l.drop lo.toNat).take (hi - lo).toNat) := by
  unfold goSlice
  rw [if_pos ⟨h0, h1, h2⟩]

lemma goSlice_none {l : List Byte} {lo hi : Int} (h : hi < lo) :
    goSlice l lo hi = none := by
  unfold goSlice
  rw [if_neg]
  rintro ⟨-, h1, -⟩
  omega

lemma goSliceFrom_some {l : List Byte} {lo : Int} (h0 : 0 ≤ lo)
    (h2 : lo ≤ (l.length : Int)) :
    goSliceFrom l lo = some (l.drop lo.toNat) := by
  unfold goSliceFrom
  rw [goSlice_some h0 h2 le_rfl]
  congr 1
  apply List.take_of_length_le
  simp only [List.length_drop]
  omega

lemma goUint16be_drop3 {data : List Byte} (h : 5 ≤ data.length) :
    goUint16be (data.drop 3) = some (recLenOf data) := by
  unfold goUint16be recLenOf
  rw [if_pos (by simp only [List.length_drop]; omega)]
  simp [List.getD_eq_getElem?_getD, List.getElem?_drop]

lemma u16be_putU16 {v : Int} (h0 : 0 ≤ v) (h1 : v < 65536) :
    u16be ((putU16 v).getD 0 0) ((putU16 v).getD 1 0) = v := by
  simp only [putU16, u16be, List.getD_cons_zero, List.getD_cons_succ]
  omega

lemma putU16_length (v : Int) : (putU16 v).length = 2 := rfl

lemma copyModel_chunks_flatten (s : Source) (r : SinkResp) :
    (copyModel s r).1.flatten = s.bytes := by
  unfold copyModel
  by_cases h : s.bytes.isEmpty
  · rw [if_pos h]
    simpa [List.isEmpty_iff] using h
  · rw [if_neg h]
    cases r.err
    · simp
      split <;> simp
    · simp

lemma writePush_disarmed {p : Int} (data : List Byte) (resp : SinkResp) (hp : p ≤ 0) :
    writePush p data resp = some ⟨[data], (resp.n : Int), resp.err, p⟩ := by
  unfold writePush
  rw [if_neg (by omega)]

lemma writePush_pass_short {p : Int} (data : List Byte) (resp : SinkResp)
    (hp : 0 < p) (hp31 : p + 5 < 2147483648) (hsm : (data.length : Int) < 2147483648)
    (hge : (data.length : Int) ≤ p + 5) :
    writePush p data resp = some ⟨[data], (resp.n : Int), resp.err, 0⟩ := by
  unfold writePush
  rw [if_pos hp, wrap32_eq_of (by omega) hp31, wrap32_eq_of (by omega) hsm,
    if_pos (by omega)]

lemma writePush_split {p : Int} (data : List Byte) (resp : SinkResp)
    (hp : 0 < p) (hp5 : p + 5 < (data.length : Int))
    (hsm : (data.length : Int) < 2147483648)
    (ht : data.getD 0 0 = typeHandshake)
    (hrec : recLenOf data ≤ (data.length : Int) - 5)
    (hlt : p < recLenOf data)
    (hov : recLenOf data ≤ maxRecordLength) :
    writePush p data resp = some ⟨[pushBuf p data],
      if (resp.n : Int) ≥ 5 then (resp.n : Int) - 5 else (resp.n : Int), resp.err, 0⟩ := by
  conv_lhs => simp only [writePush]
  rw [if_pos hp, wrap32_eq_of (show (-2147483648:Int) ≤ p + 5 by omega) (show p + 5 < 2147483648 by omega),
    wrap32_eq_of (show (-2147483648:Int) ≤ (data.length:Int) by omega) hsm,
    if_neg (show ¬ (p + 5 ≥ (data.length:Int)) by omega)]
  rw [goSliceFrom_some (show (0:Int) ≤ 3 by omega) (show (3:Int) ≤ data.length by omega),
    goSliceFrom_some (show (0:Int) ≤ 5 by omega) (show (5:Int) ≤ data.length by omega)]
  simp only [Option.bind_eq_bind, Option.some_bind]
  rw [show Int.toNat 3 = 3 from rfl, show Int.toNat 5 = 5 from rfl,
    goUint16be_drop3 (show 5 ≤ data.length by omega)]
  simp only [Option.bind_eq_bind, Option.some_bind]
  rw [if_neg (show ¬ _ by push_neg; exact ⟨by simpa using ht, by omega, by omega, by omega⟩)]
  rw [goSlice_some (le_refl 0) (by omega) (by simp only [List.length_drop]; omega),
    goSlice_some (by omega) (by omega) (by simp only [List.length_drop]; omega)]
  simp only [Option.bind_eq_bind, Option.some_bind]
  rw [show Int.toNat 0 = 0 from rfl, List.drop_zero, sub_zero]
  rw [show (((List.drop 5 data).drop p.toNat).take (recLenOf data - p).toNat).length
      = (recLenOf data - p).toNat by simp only [List.length_take, List.length_drop]; omega]
  rw [Int.toNat_of_nonneg (show (0:Int) ≤ recLenOf data - p by omega)]
  unfold pushBuf
  by_cases hm : recLenOf data < (data.length : Int) - 5
  · rw [if_pos hm]
  · rw [if_neg hm, show List.drop (recLenOf data).toNat (List.drop 5 data) = [] from
      List.drop_eq_nil_iff.mpr (by simp only [List.length_drop]; omega)]

lemma writePush_pass_inelig {p : Int} (data : List Byte) (resp : SinkResp)
    (hp : 0 < p) (hp5 : p + 5 < (data.length : Int))
    (hsm : (data.length : Int) < 2147483648)
    (hor : data.getD 0 0 ≠ typeHandshake ∨ (data.length : Int) - 5 < recLenOf data ∨
      p = recLenOf data ∨ maxRecordLength < recLenOf data) :
    writePush p data resp = some ⟨[data], (resp.n : Int), resp.err, 0⟩ := by
  conv_lhs => simp only [writePush]
  rw [if_pos hp, wrap32_eq_of (show (-2147483648:Int) ≤ p + 5 by omega) (show p + 5 < 2147483648 by omega),
    wrap32_eq_of (show (-2147483648:Int) ≤ (data.length:Int) by omega) hsm,
    if_neg (show ¬ (p + 5 ≥ (data.length:Int)) by omega)]
  rw [goSliceFrom_some (show (0:Int) ≤ 3 by omega) (show (3:Int) ≤ data.length by omega),
    goSliceFrom_some (show (0:Int) ≤ 5 by omega) (show (5:Int) ≤ data.length by omega)]
  simp only [Option.bind_eq_bind, Option.some_bind]
  rw [show Int.toNat 3 = 3 from rfl, show Int.toNat 5 = 5 from rfl,
    goUint16be_drop3 (show 5 ≤ data.length by omega)]
  simp only [Option.bind_eq_bind, Option.some_bind]
  rw [if_pos hor]

lemma writePush_panic {p : Int} (data : List Byte) (resp : SinkResp)
    (hp : 0 < p) (hp5 : p + 5 < (data.length : Int))
    (hsm : (data.length : Int) < 2147483648)
    (ht : data.getD 0 0 = typeHandshake)
    (hrec : recLenOf data ≤ (data.length : Int) - 5)
    (hgt : recLenOf data < p)
    (hov : recLenOf data ≤ maxRecordLength) :
    writePush p data resp = none := by
  conv_lhs => simp only [writePush]
  rw [if_pos hp, wrap32_eq_of (show (-2147483648:Int) ≤ p + 5 by omega) (show p + 5 < 2147483648 by omega),
    wrap32_eq_of (show (-2147483648:Int) ≤ (data.length:Int) by omega) hsm,
    if_neg (show ¬ (p + 5 ≥ (data.length:Int)) by omega)]
  rw [goSliceFrom_some (show (0:Int) ≤ 3 by omega) (show (3:Int) ≤ data.length by omega),
    goSliceFrom_some (show (0:Int) ≤ 5 by omega) (show (5:Int) ≤ data.length by omega)]
  simp only [Option.bind_eq_bind, Option.some_bind]
  rw [show Int.toNat 3 = 3 from rfl, show Int.toNat 5 = 5 from rfl,
    goUint16be_drop3 (show 5 ≤ data.length by omega)]
  simp only [Option.bind_eq_bind, Option.some_bind]
  rw [if_neg (show ¬ _ by push_neg; exact ⟨by simpa using ht, by omega, by omega, by omega⟩)]
  rw [goSlice_some (le_refl 0) (by omega) (by simp only [List.length_drop]; omega),
    goSlice_none (show recLenOf data < p from hgt)]
  simp only [Option.bind_eq_bind, Option.some_bind, Option.none_bind]

lemma readFull_ok {src : Source} {m : Nat} (h : m ≤ src.bytes.length) :
    readFull src m = .ok (src.bytes.take m, ⟨src.bytes.drop m, src.tailErr⟩) := by
  unfold readFull
  rw [if_pos h]

lemma readFull_short {src : Source} {m : Nat} (h : src.bytes.length < m) :
    readFull src m = .error
      (src.tailErr.getD (if src.bytes.isEmpty then .eof else .unexpectedEof)) := by
  unfold readFull
  rw [if_neg (by omega)]

lemma getD_take5 (bytes : List Byte) (i : Nat) (hi : i < 5) :
    (bytes.take 5).getD i 0 = bytes.getD i 0 := by
  simp [List.getD_eq_getElem?_getD, List.getElem?_take, hi]

lemma readFrom_dontFrag {p : Int} (src : Source) (respW respC : SinkResp)
    (hp : 0 < p) (h5 : 5 ≤ src.bytes.length)
    (hor : src.bytes.getD 0 0 ≠ typeHandshake ∨ recLenOf src.bytes ≤ p ∨
      maxRecordLength < recLenOf src.bytes) :
    readFrom p src respW respC =
      dontFrag (src.bytes.take 5) ⟨src.bytes.drop 5, src.tailErr⟩ respW respC := by
  unfold readFrom
  rw [if_pos hp]
  split
  · next e heq =>
    rw [readFull_ok h5] at heq
    exact absurd heq (by simp)
  · next recordHeader src1 heq =>
    rw [readFull_ok h5] at heq
    injection heq with heq
    injection heq with h1 h2
    subst h1
    subst h2
    have hrl : u16be ((List.take 5 src.bytes).getD 3 0) ((List.take 5 src.bytes).getD 4 0)
        = recLenOf src.bytes := by
      rw [getD_take5 src.bytes 3 (by omega), getD_take5 src.bytes 4 (by omega)]
      rfl
    have hg0 : (List.take 5 src.bytes).getD 0 0 = src.bytes.getD 0 0 :=
      getD_take5 src.bytes 0 (by omega)
    by_cases h1 : (List.take 5 src.bytes).getD 0 0 ≠ typeHandshake ∨
        p ≥ u16be ((List.take 5 src.bytes).getD 3 0) ((List.take 5 src.bytes).getD 4 0)
    · rw [if_pos h1]
    · rw [if_neg h1, if_pos ?pos]
      case pos =>
        push_neg at h1
        rw [hrl]
        rcases hor with h | h | h
        · exact absurd (hg0 ▸ h1.1) h
        · rw [hrl] at h1
          omega
        · exact h

lemma readFrom_split {p : Int} (src : Source) (respW respC : SinkResp)
    (hp : 0 < p) (ht : src.bytes.getD 0 0 = typeHandshake)
    (hlt : p < recLenOf src.bytes) (hov : recLenOf src.bytes ≤ maxRecordLength)
    (hfull : 5 + (recLenOf src.bytes).toNat ≤ src.bytes.length)
    (hw : respW.err = none) :
    readFrom p src respW respC =
      ⟨[pullBuf p src.bytes] ++
        (copyModel ⟨src.bytes.drop (5 + (recLenOf src.bytes).toNat), src.tailErr⟩ respC).1,
       (if (respW.n : Int) ≥ 5 then (respW.n : Int) - 5 else (respW.n : Int)) +
        (copyModel ⟨src.bytes.drop (5 + (recLenOf src.bytes).toNat), src.tailErr⟩ respC).2.1,
       (copyModel ⟨src.bytes.drop (5 + (recLenOf src.bytes).toNat), src.tailErr⟩ respC).2.2,
       0⟩ := by
  unfold readFrom
  rw [if_pos hp]
  split
  · next e heq =>
    rw [readFull_ok (by omega)] at heq
    exact absurd heq (by simp)
  · next recordHeader src1 heq =>
    rw [readFull_ok (by omega)] at heq
    injection heq with heq
    injection heq with h1 h2
    subst h1
    subst h2
    have hrl : u16be ((List.take 5 src.bytes).getD 3 0) ((List.take 5 src.bytes).getD 4 0)
        = recLenOf src.bytes := by
      rw [getD_take5 _ 3 (by omega), getD_take5 _ 4 (by omega)]
      rfl
    rw [if_neg (by
      push_neg
      refine ⟨by rw [getD_take5 _ 0 (by omega)]; exact ht, ?_⟩
      rw [hrl]
      omega)]
    rw [if_neg (by rw [hrl]; omega)]
    split
    · next e heq2 =>
      rw [readFull_ok (by simp only [List.length_drop]; omega)] at heq2
      exact absurd heq2 (by simp)
    · next record1 src2 heq2 =>
      rw [readFull_ok (by simp only [List.length_drop]; omega)] at heq2
      injection heq2 with heq2
      injection heq2 with h1 h2
      subst h1
      subst h2
      split
      · next e heq3 =>
        rw [readFull_ok (by simp only [List.length_drop]; omega)] at heq3
        exact absurd heq3 (by simp)
      · next record2 src3 heq3 =>
        rw [readFull_ok (by simp only [List.length_drop]; omega)] at heq3
        injection heq3 with heq3
        injection heq3 with h1 h2
        subst h1
        subst h2
        rw [if_neg (by simp [hw])]
        rw [hrl]
        simp only [List.take_take, List.drop_drop]
        rw [show 5 + p.toNat + (recLenOf src.bytes - p).toNat
            = 5 + (recLenOf src.bytes).toNat by omega,
          show (3 : Nat) ⊓ 5 = 3 by decide]
        rfl

lemma readFrom_payload_error {p : Int} (src : Source) (respW respC : SinkResp) (e : Err)
    (hp : 0 < p) (ht : src.bytes.getD 0 0 = typeHandshake)
    (hlt : p < recLenOf src.bytes) (hov : recLenOf src.bytes ≤ maxRecordLength)
    (h5 : 5 ≤ src.bytes.length)
    (hshort : src.bytes.length < 5 + (recLenOf src.bytes).toNat)
    (hte : src.tailErr = some e) :
    readFrom p src respW respC = ⟨[], 0, some e, 0⟩ := by
  unfold readFrom
  rw [if_pos hp]
  split
  · next e' heq =>
    rw [readFull_ok h5] at heq
    exact absurd heq (by simp)
  · next recordHeader src1 heq =>
    rw [readFull_ok h5] at heq
    injection heq with heq
    injection heq with h1 h2
    subst h1
    subst h2
    have hrl : u16be ((List.take 5 src.bytes).getD 3 0) ((List.take 5 src.bytes).getD 4 0)
        = recLenOf src.bytes := by
      rw [getD_take5 _ 3 (by omega), getD_take5 _ 4 (by omega)]
      rfl
    rw [if_neg (by
      push_neg
      refine ⟨by rw [getD_take5 _ 0 (by omega)]; exact ht, ?_⟩
      rw [hrl]
      omega)]
    rw [if_neg (by rw [hrl]; omega)]
    by_cases hfirst : p.toNat ≤ (src.bytes.drop 5).length
    · split
      · next e2 heq2 =>
        rw [readFull_ok hfirst] at heq2
        exact absurd heq2 (by simp)
      · next record1 src2 heq2 =>
        rw [readFull_ok hfirst] at heq2
        injection heq2 with heq2
        injection heq2 with h1 h2
        subst h1
        subst h2
        split
        · next e2 heq3 =>
          rw [readFull_short (by
            simp only [List.length_drop] at hfirst ⊢
            rw [hrl]
            omega)] at heq3
          injection heq3 with h1
          subst h1
          simp [hte]
        · next record2 src3 heq3 =>
          rw [readFull_short (by
            simp only [List.length_drop] at hfirst ⊢
            rw [hrl]
            omega)] at heq3
          exact absurd heq3 (by simp)
    · split
      · next e2 heq2 =>
        rw [readFull_short (by simp only [List.length_drop] at hfirst ⊢; omega)] at heq2
        injection heq2 with h1
        subst h1
        simp [hte]
      · next record1 src2 heq2 =>
        rw [readFull_short (by simp only [List.length_drop] at hfirst ⊢; omega)] at heq2
        exact absurd heq2 (by simp)

/-! ## Demonstration inputs (the spec's end-to-end scenario and variants) -/

/-- The spec's end-to-end scenario input: handshake header with length
field 16, then 16 payload bytes. -/
def demoInput : List Byte :=
  [22, 3, 3, 0, 16, 1, 2, 3, 4, 5, 6, 7, 8, 9, 10, 11, 12, 13, 14, 15, 16]

/-- Its expected split at offset 4: `[22][03 03][00 04]`, 4 payload bytes,
`[22][03 03][00 0C]`, the remaining 12 payload bytes. -/
def demoSplit : List Byte :=
  [22, 3, 3, 0, 4, 1, 2, 3, 4, 22, 3, 3, 0, 12, 5, 6, 7, 8, 9, 10, 11, 12, 13, 14, 15, 16]

/-! ## State lemmas for the one-shot property -/

lemma writePush_prefixBytes_nonpos {p : Int} {data : List Byte} {resp : SinkResp}
    {out : PushOut} (h : writePush p data resp = some out) : out.prefixBytes' ≤ 0 := by
  by_cases hp : 0 < p
  · simp only [writePush] at h
    rw [if_pos hp] at h
    by_cases hshort : wrap32 (p + 5) ≥ wrap32 (data.length : Int)
    · rw [if_pos hshort] at h
      rw [← Option.some.inj h]
    · rw [if_neg hshort] at h
      rcases h3 : goSliceFrom data 3 with - | lf
      · rw [h3] at h
        exact absurd h (by simp)
      rw [h3] at h
      simp only [Option.bind_eq_bind, Option.some_bind] at h
      rcases h4 : goUint16be lf with - | rl
      · rw [h4] at h
        exact absurd h (by simp)
      rw [h4] at h
      simp only [Option.bind_eq_bind, Option.some_bind] at h
      rcases h5 : goSliceFrom data 5 with - | rem
      · rw [h5] at h
        exact absurd h (by simp)
      rw [h5] at h
      simp only [Option.bind_eq_bind, Option.some_bind] at h
      by_cases hor : data.getD 0 0 ≠ typeHandshake ∨ rl > wrap32 (data.length : Int) - 5 ∨
          p = rl ∨ rl > maxRecordLength
      · rw [if_pos hor] at h
        rw [← Option.some.inj h]
      · rw [if_neg hor] at h
        rcases h6 : goSlice rem 0 p with - | r1
        · rw [h6] at h
          exact absurd h (by simp)
        rw [h6] at h
        simp only [Option.bind_eq_bind, Option.some_bind] at h
        rcases h7 : goSlice rem p rl with - | r2
        · rw [h7] at h
          exact absurd h (by simp)
        rw [h7] at h
        simp only [Option.bind_eq_bind, Option.some_bind] at h
        rw [← Option.some.inj h]
  · rw [writePush_disarmed data resp (by omega)] at h
    rw [← Option.some.inj h]
    show p ≤ 0
    omega

lemma writePushSeq_pass {p : Int} (hp : p ≤ 0) (calls : List (List Byte × SinkResp)) :
    writePushSeq p calls =
      some (calls.map fun c => ⟨[c.1], (c.2.n : Int), c.2.err, p⟩) := by
  induction calls with
  | nil => rfl
  | cons c rest ih =>
    unfold writePushSeq
    rw [writePush_disarmed c.1 c.2 hp]
    simp only [Option.bind_eq_bind, Option.some_bind]
    rw [ih]
    rfl

/-! ## Claim theorems -/

/-- Claim C2 — one-shot property for push mode: after any first `Write`
call that returns, the writer can never again alter record structure:
every subsequent sequence of `Write` calls, whatever the buffers contain,
is a byte-identical pass-through delivering each buffer verbatim to the
sink and returning the sink's count and error unchanged, with
`prefixBytes` staying non-positive (disarmed) throughout. -/
theorem c2_push_one_shot (p : Int) (d : List Byte) (r : SinkResp) (o : PushOut)
    (rest : List (List Byte × SinkResp)) (h : writePush p d r = some o) :
    writePushSeq o.prefixBytes' rest =
      some (rest.map fun c => ⟨[c.1], (c.2.n : Int), c.2.err, o.prefixBytes'⟩) :=
  writePushSeq_pass (writePush_prefixBytes_nonpos h) rest

/-- Witness for C2 at a concrete first call (armed writer, offset 4,
1-byte buffer) followed by two concrete pass-through calls. -/
theorem c2_push_one_shot_witness :
    writePushSeq (0 : Int)
        [([22, 3, 3, 0, 9, 1], ⟨6, none⟩), ([7, 8], ⟨2, some (Err.other 1)⟩)] =
      some [⟨[[22, 3, 3, 0, 9, 1]], 6, none, 0⟩, ⟨[[7, 8]], 2, some (Err.other 1), 0⟩] :=
  c2_push_one_shot 4 [9] ⟨1, none⟩ ⟨[[9]], 1, none, 0⟩ _ (by decide)

/-- Claim C3 — the claimed pass-through for `offset ≥ header.length` fails
in push mode: with `prefixBytes = 4` and a 10-byte buffer whose record
length field is 3 (so the buffer is longer than `offset + 5`), `Write`
evaluates `remainder[4:3]`, an out-of-range slice, and panics (model:
`none`) instead of emitting the bytes unmodified.  Pull mode, by contrast,
does pass the same record through unmodified (its guard is
`prefixBytes >= recordLength`). -/
theorem c3_offset_at_or_past_length :
    writePush 4 [22, 3, 3, 0, 3, 9, 9, 9, 9, 9] ⟨10, none⟩ = none ∧
    readFrom 4 ⟨[22, 3, 3, 0, 3, 9, 9, 9], none⟩ ⟨5, none⟩ ⟨3, none⟩ =
      ⟨[[22, 3, 3, 0, 3], [9, 9, 9]], 8, none, 0⟩ :=
  ⟨by decide, by decide⟩

/-- Claim C4 — the claimed "errors always disarm" fails on the pull-mode
header read: an armed writer (`prefixBytes = 4`) whose source yields only
3 bytes before end of stream returns `(0, io.ErrUnexpectedEOF)` but leaves
`prefixBytes = 4`, still armed, so the split will be re-attempted by a
later call (source lines 50-53 return without zeroing the field). -/
theorem c4_header_error_leaves_armed :
    readFrom 4 ⟨[1, 2, 3], none⟩ ⟨0, none⟩ ⟨0, none⟩ =
      ⟨[], 0, some .unexpectedEof, 4⟩ ∧ (4 : Int) ≠ 0 :=
  ⟨by decide, by decide⟩

/-- Claim C6 — end-to-end scenario: an armed writer with offset 4, given
the 21-byte input `[22][03 03][00 10]` + 16 payload bytes in one push-mode
call, delivers to the sink exactly `[22][03 03][00 04]` + payload[0:4] +
`[22][03 03][00 0C]` + payload[4:16] (26 bytes), and, the sink accepting
everything, returns 21 — the original input length. -/
theorem c6_end_to_end_scenario :
    demoInput.length = 21 ∧
    writePush 4 demoInput ⟨26, none⟩ = some ⟨[demoSplit], 21, none, 0⟩ :=
  ⟨by decide, by decide⟩

/-- Counterexample to claim C1 as universally stated: this push-mode call
(armed, offset 4, complete record with length field 3 plus trailing bytes)
never returns — the model's `none` is the Go out-of-range-slice panic — so
the sink receives nothing at all rather than the input bytes. -/
theorem c1_counterexample_push_no_delivery :
    writePush 4 [22, 3, 3, 0, 3, 1, 2, 3, 4, 5] ⟨10, none⟩ = none :=
  by decide

/-- Counterexample to claim C5 as stated: in the C6 scenario with a sink
that accepts only 3 of the 26 split bytes (with an error), `Write` returns
3 unchanged — not `max(3 - 5, 0) = 0` as the claim's clamping rule
says (source line 135 subtracts 5 only when `written >= 5`). -/
theorem c5_counterexample_no_clamping :
    writePush 4 demoInput ⟨3, some (Err.other 7)⟩ =
      some ⟨[demoSplit], 3, some (Err.other 7), 0⟩ ∧
    ¬ ((3 : Int) = max ((3 : Int) - 5) 0) :=
  ⟨by decide, by decide⟩

/-- Claim C5 (amended) — return-value adjustment without clamping: for
every push-mode `Write` call in which a split occurred, the count returned
equals the sink's accepted count minus 5 when that count is at least 5,
and equals the sink's accepted count unchanged otherwise. -/
theorem c5_return_count_adjustment (p : Int) (data : List Byte) (resp : SinkResp)
    (out : PushOut) (hsm : (data.length : Int) < 2147483648)
    (he : eligPush p data) (h : writePush p data resp = some out) :
    out.ret = if (resp.n : Int) ≥ 5 then (resp.n : Int) - 5 else (resp.n : Int) := by
  obtain ⟨h1, h2, h3, h4, h5, h6⟩ := he
  rw [writePush_split data resp h1 h2 hsm h3 h4 h5 h6] at h
  rw [← Option.some.inj h]

/-- Witness for C5 at a concrete split (offset 2, record length 3) whose
sink accepts only 3 bytes: the reported count is 3, not 0. -/
theorem c5_return_count_adjustment_witness :
    (⟨[[22, 3, 3, 0, 2, 7, 8, 22, 3, 3, 0, 1, 9]], 3, none, 0⟩ : PushOut).ret =
      if ((3 : Nat) : Int) ≥ 5 then ((3 : Nat) : Int) - 5 else ((3 : Nat) : Int) :=
  c5_return_count_adjustment 2 [22, 3, 3, 0, 3, 7, 8, 9] ⟨3, none⟩ _
    (by decide) (by decide) (by decide)

/-- Claim C8 — non-positive offset degrades to pure pass-through: a writer
whose `prefixBytes` is zero or negative forwards every push-mode buffer
verbatim, returning the sink's count and error unchanged, and treats every
pull-mode call as a plain copy of the source into the sink, with the state
never changing. -/
theorem c8_nonpositive_offset_pass_through (p : Int) (data : List Byte)
    (resp : SinkResp) (src : Source) (respW respC : SinkResp) (hp : p ≤ 0) :
    writePush p data resp = some ⟨[data], (resp.n : Int), resp.err, p⟩ ∧
    readFrom p src respW respC =
      ⟨(copyModel src respC).1, (copyModel src respC).2.1, (copyModel src respC).2.2, p⟩ := by
  refine ⟨writePush_disarmed data resp hp, ?_⟩
  unfold readFrom
  rw [if_neg (by omega)]

/-- Witness for C8 at `prefixBytes = 0` with concrete buffers: the
push-mode buffer (a would-be splittable record) and the pull-mode source
bytes are moved verbatim. -/
theorem c8_nonpositive_offset_pass_through_witness :
    writePush 0 [22, 3, 3, 0, 1, 5] ⟨6, none⟩ =
      some ⟨[[22, 3, 3, 0, 1, 5]], 6, none, 0⟩ ∧
    readFrom 0 ⟨[7, 8], none⟩ ⟨0, none⟩ ⟨2, none⟩ = ⟨[[7, 8]], 2, none, 0⟩ :=
  c8_nonpositive_offset_pass_through 0 [22, 3, 3, 0, 1, 5] ⟨6, none⟩
    ⟨[7, 8], none⟩ ⟨0, none⟩ ⟨2, none⟩ (by decide)

/-- Claim C9 — pull-mode mid-record read failure drops consumed bytes: on
an armed call whose record header is eligible for splitting, if the source
fails (with its own error) before the full record payload was read, the
call returns `(0, thatError)`, writes nothing to the sink, and discards
the header and payload bytes already consumed, leaving the writer
disarmed. -/
theorem c9_pull_midrecord_error_drops (p : Int) (src : Source)
    (respW respC : SinkResp) (e : Err) (hp : 0 < p)
    (hte : src.tailErr = some e)
    (ht : src.bytes.getD 0 0 = typeHandshake)
    (hlt : p < recLenOf src.bytes) (hov : recLenOf src.bytes ≤ maxRecordLength)
    (h5 : 5 ≤ src.bytes.length)
    (hshort : src.bytes.length < 5 + (recLenOf src.bytes).toNat) :
    readFrom p src respW respC = ⟨[], 0, some e, 0⟩ :=
  readFrom_payload_error src respW respC e hp ht hlt hov h5 hshort hte

/-- Witness for C9: offset 2, header announcing a 9-byte record, source
yielding only 3 payload bytes then an error: nothing is written, the count
is 0, the error is surfaced, the writer is disarmed. -/
theorem c9_pull_midrecord_error_drops_witness :
    readFrom 2 ⟨[22, 3, 3, 0, 9, 1, 2, 3], some (Err.other 3)⟩ ⟨0, none⟩ ⟨0, none⟩ =
      ⟨[], 0, some (Err.other 3), 0⟩ :=
  c9_pull_midrecord_error_drops 2 ⟨[22, 3, 3, 0, 9, 1, 2, 3], some (Err.other 3)⟩
    ⟨0, none⟩ ⟨0, none⟩ (Err.other 3) (by decide) (by decide) (by decide)
    (by decide) (by decide) (by decide) (by decide)

lemma pushBuf_length {p : Int} (data : List Byte)
    (hp : 0 < p) (hp5 : p + 5 < (data.length : Int))
    (hrec : recLenOf data ≤ (data.length : Int) - 5) (hlt : p < recLenOf data) :
    (pushBuf p data).length = data.length + 5 := by
  unfold pushBuf
  simp only [List.length_append, List.length_take, List.length_drop, putU16_length]
  omega

lemma pullBuf_length {p : Int} (bytes : List Byte)
    (hp : 0 < p) (hlt : p < recLenOf bytes)
    (hfull : 5 + (recLenOf bytes).toNat ≤ bytes.length) :
    (pullBuf p bytes).length = 10 + (recLenOf bytes).toNat := by
  unfold pullBuf
  simp only [List.length_append, List.length_take, List.length_drop, putU16_length]
  omega

lemma dontFrag_flatten (first : List Byte) (src : Source) (respW respC : SinkResp)
    (hw : respW.err = none) :
    ((dontFrag first src respW respC).chunks).flatten = first ++ src.bytes := by
  unfold dontFrag
  rw [if_neg (by simp [hw])]
  simp [copyModel_chunks_flatten]

/-- Claim C7 — oversized-record pass-through with exclusive boundary: a
first call in either mode seeing a handshake record whose length field
exceeds 16384 splits nothing and emits the bytes unmodified; a length
field of exactly 16384 is not disqualified by this rule (the pull-mode
call splits it, delivering 5 extra bytes). -/
theorem c7_oversized_record_boundary :
    (∀ (p : Int) (data : List Byte) (resp : SinkResp),
      0 < p → p + 5 < 2147483648 → (data.length : Int) < 2147483648 →
      data.getD 0 0 = typeHandshake → maxRecordLength < recLenOf data →
      writePush p data resp = some ⟨[data], (resp.n : Int), resp.err, 0⟩) ∧
    (∀ (p : Int) (src : Source) (respW respC : SinkResp),
      0 < p → 5 ≤ src.bytes.length → src.bytes.getD 0 0 = typeHandshake →
      maxRecordLength < recLenOf src.bytes → respW.err = none →
      ((readFrom p src respW respC).chunks).flatten = src.bytes) ∧
    (∀ (p : Int) (src : Source) (respW respC : SinkResp),
      0 < p → src.bytes.getD 0 0 = typeHandshake →
      recLenOf src.bytes = 16384 → p < 16384 →
      5 + 16384 ≤ src.bytes.length → respW.err = none →
      ((readFrom p src respW respC).chunks).flatten.length = src.bytes.length + 5) := by
  refine ⟨?_, ?_, ?_⟩
  · intro p data resp hp hp31 hsm ht hov
    by_cases hshort : (data.length : Int) ≤ p + 5
    · exact writePush_pass_short data resp hp hp31 hsm hshort
    · exact writePush_pass_inelig data resp hp (by omega) hsm
        (Or.inr (Or.inr (Or.inr hov)))
  · intro p src respW respC hp h5 ht hov hw
    rw [readFrom_dontFrag src respW respC hp h5 (Or.inr (Or.inr hov)),
      dontFrag_flatten _ _ _ _ hw]
    exact List.take_append_drop 5 src.bytes
  · intro p src respW respC hp ht h16384 hplt hlen hw
    have hlt' : p < recLenOf src.bytes := by omega
    have hfull : 5 + (recLenOf src.bytes).toNat ≤ src.bytes.length := by omega
    simp only [readFrom_split src respW respC hp ht hlt'
        (by rw [h16384]; decide) hfull hw,
      List.flatten_append, List.flatten_cons, List.flatten_nil, List.append_nil,
      List.length_append, copyModel_chunks_flatten, List.length_drop]
    rw [pullBuf_length src.bytes hp hlt' hfull]
    omega

/-- A push-mode buffer holding a complete handshake record whose length
field is 16385 = maxFragmentPayload + 1. -/
def bigOver : List Byte := 22 :: 3 :: 3 :: 64 :: 1 :: List.replicate 16385 0

/-- A pull-mode source with the same oversized record. -/
def bigOverSrc : Source := ⟨22 :: 3 :: 3 :: 64 :: 1 :: List.replicate 16385 7, none⟩

/-- A pull-mode source whose record length field is exactly 16384. -/
def bigExact : Source := ⟨22 :: 3 :: 3 :: 64 :: 0 :: List.replicate 16384 9, none⟩

/-- Witness for C7: length field 16385 passes through unmodified in both
modes; length field exactly 16384 still splits (5 extra bytes appear). -/
theorem c7_oversized_record_boundary_witness :
    writePush 3 bigOver ⟨16390, none⟩ = some ⟨[bigOver], 16390, none, 0⟩ ∧
    ((readFrom 3 bigOverSrc ⟨5, none⟩ ⟨16385, none⟩).chunks).flatten = bigOverSrc.bytes ∧
    ((readFrom 4 bigExact ⟨16394, none⟩ ⟨0, none⟩).chunks).flatten.length =
      bigExact.bytes.length + 5 := by
  refine ⟨?_, ?_, ?_⟩
  · exact c7_oversized_record_boundary.1 3 bigOver ⟨16390, none⟩ (by decide) (by decide)
      (by norm_num [bigOver, List.length_replicate]) (by decide) (by decide)
  · exact c7_oversized_record_boundary.2.1 3 bigOverSrc ⟨5, none⟩ ⟨16385, none⟩ (by decide)
      (by norm_num [bigOverSrc, List.length_replicate]) (by decide) (by decide) rfl
  · exact c7_oversized_record_boundary.2.2 4 bigExact ⟨16394, none⟩ ⟨0, none⟩ (by decide)
      (by decide) (by decide) (by decide)
      (by norm_num [bigExact, List.length_replicate]) rfl

/-- Claim C1 (amended) — content preservation for calls that complete
without error: in push mode, any `Write` call that returns delivers to the
sink exactly the original buffer when the record is not eligible, and
exactly the split output — first header with length field `offset`, first
payload slice, a duplicate header (same type and version bytes) with
length field `recordLength - offset`, second payload slice, trailing bytes
verbatim — when it is; the split output is exactly 5 bytes longer than the
input, and the two emitted length fields decode to values summing to the
original length field.  In pull mode, on a source holding the complete
record and a sink accepting the first write, the bytes delivered across
the call concatenate to the original source bytes, plus the same 5-byte
duplicate header exactly when the record was eligible. -/
theorem c1_content_preservation :
    (∀ (p : Int) (data : List Byte) (resp : SinkResp) (out : PushOut),
      0 < p → p + 5 < 2147483648 → (data.length : Int) < 2147483648 →
      writePush p data resp = some out →
      if eligPush p data then
        out.chunks = [pushBuf p data] ∧
        (pushBuf p data).length = data.length + 5 ∧
        u16be ((putU16 p).getD 0 0) ((putU16 p).getD 1 0) +
          u16be ((putU16 (recLenOf data - p)).getD 0 0)
            ((putU16 (recLenOf data - p)).getD 1 0) = recLenOf data
      else out.chunks = [data]) ∧
    (∀ (p : Int) (src : Source) (respW respC : SinkResp),
      0 < p → 5 ≤ src.bytes.length → respW.err = none →
      (eligPullHeader p src.bytes → 5 + (recLenOf src.bytes).toNat ≤ src.bytes.length) →
      if eligPullHeader p src.bytes then
        ((readFrom p src respW respC).chunks).flatten =
          pullBuf p src.bytes ++ src.bytes.drop (5 + (recLenOf src.bytes).toNat) ∧
        ((readFrom p src respW respC).chunks).flatten.length = src.bytes.length + 5
      else ((readFrom p src respW respC).chunks).flatten = src.bytes) := by
  constructor
  · intro p data resp out hp hp31 hsm h
    by_cases he : eligPush p data
    · rw [if_pos he]
      obtain ⟨h1, h2, h3, h4, h5, h6⟩ := he
      rw [writePush_split data resp h1 h2 hsm h3 h4 h5 h6] at h
      refine ⟨?_, pushBuf_length data h1 h2 h4 h5, ?_⟩
      · rw [← Option.some.inj h]
      · have hm : maxRecordLength = (16384 : Int) := rfl
        rw [u16be_putU16 (by omega) (by omega), u16be_putU16 (by omega) (by omega)]
        omega
    · rw [if_neg he]
      by_cases hshort : (data.length : Int) ≤ p + 5
      · rw [writePush_pass_short data resp hp hp31 hsm hshort] at h
        rw [← Option.some.inj h]
      · by_cases hor : data.getD 0 0 ≠ typeHandshake ∨
            (data.length : Int) - 5 < recLenOf data ∨
            p = recLenOf data ∨ maxRecordLength < recLenOf data
        · rw [writePush_pass_inelig data resp hp (by omega) hsm hor] at h
          rw [← Option.some.inj h]
        · push_neg at hor
          obtain ⟨ht, hrec, hne, hov⟩ := hor
          have hgt : recLenOf data < p := by
            rcases lt_trichotomy p (recLenOf data) with hlt | heq | hgt
            · exact absurd ⟨hp, by omega, ht, hrec, hlt, hov⟩ he
            · exact absurd heq hne
            · exact hgt
          rw [writePush_panic data resp hp (by omega) hsm ht hrec hgt hov] at h
          exact absurd h (by simp)
  · intro p src respW respC hp h5 hw hcomp
    by_cases he : eligPullHeader p src.bytes
    · rw [if_pos he]
      obtain ⟨ht, hlt, hov⟩ := he
      have hfull := hcomp ⟨ht, hlt, hov⟩
      simp only [readFrom_split src respW respC hp ht hlt hov hfull hw,
        List.flatten_append, List.flatten_cons, List.flatten_nil, List.append_nil,
        copyModel_chunks_flatten]
      refine ⟨trivial, ?_⟩
      rw [List.length_append, pullBuf_length src.bytes hp hlt hfull, List.length_drop]
      omega
    · rw [if_neg he]
      have hor : src.bytes.getD 0 0 ≠ typeHandshake ∨ recLenOf src.bytes ≤ p ∨
          maxRecordLength < recLenOf src.bytes := by
        by_contra hc
        push_neg at hc
        exact he ⟨hc.1, by omega, by omega⟩
      rw [readFrom_dontFrag src respW respC hp h5 hor, dontFrag_flatten _ _ _ _ hw]
      exact List.take_append_drop 5 src.bytes

/-- Witness for C1: the C6 scenario split output in push mode (chunk is
`pushBuf`, 5 bytes longer than the input), and a concrete eligible
pull-mode call whose delivered bytes are the source's 10 bytes plus 5. -/
theorem c1_content_preservation_witness :
    (⟨[demoSplit], 21, none, 0⟩ : PushOut).chunks = [pushBuf 4 demoInput] ∧
    (pushBuf 4 demoInput).length = demoInput.length + 5 ∧
    ((readFrom 2 ⟨[22, 3, 3, 0, 4, 1, 2, 3, 4, 9], none⟩ ⟨11, none⟩
        ⟨1, none⟩).chunks).flatten.length
      = ([22, 3, 3, 0, 4, 1, 2, 3, 4, 9] : List Byte).length + 5 := by
  have hpush := c1_content_preservation.1 4 demoInput ⟨26, none⟩
    ⟨[demoSplit], 21, none, 0⟩ (by decide) (by decide) (by decide) (by decide)
  rw [if_pos (by decide)] at hpush
  have hpull := c1_content_preservation.2 2 ⟨[22, 3, 3, 0, 4, 1, 2, 3, 4, 9], none⟩
    ⟨11, none⟩ ⟨1, none⟩ (by decide) (by decide) rfl (fun _ => by decide)
  rw [if_pos (by decide)] at hpull
  exact ⟨hpush.1, hpush.2.1, hpull.2⟩

/-! ## Shadowsocks prefix parsing (claim C10) -/

lemma land255_eq_self_iff (r : Nat) : (r &&& 255 = r) ↔ r ≤ 255 := by
  have h := Nat.and_pow_two_sub_one_eq_mod r 8
  norm_num at h
  rw [h]
  omega

lemma parseStringPrefixLoop_eq (l : List Char) :
    parseStringPrefixLoop l =
      if ∀ r ∈ l, r.toNat ≤ 255 then some (l.map Char.toNat) else none := by
  induction l with
  | nil => simp [parseStringPrefixLoop]
  | cons r rest ih =>
    unfold parseStringPrefixLoop
    by_cases hr : r.toNat &&& 255 = r.toNat
    · rw [if_pos hr, ih]
      by_cases hall : ∀ x ∈ rest, x.toNat ≤ 255
      · rw [if_pos hall, if_pos (by
          simp only [List.forall_mem_cons]
          exact ⟨(land255_eq_self_iff r.toNat).mp hr, hall⟩)]
        rfl
      · rw [if_neg hall, if_neg (by
          simp only [List.forall_mem_cons]
          intro hc
          exact hall hc.2)]
        rfl
    · rw [if_neg hr, if_neg (by
        simp only [List.forall_mem_cons]
        intro hc
        exact hr ((land255_eq_self_iff r.toNat).mpr hc.1))]

/-- Claim C10 — Shadowsocks prefix parsing is Latin-1 by rune:
`parseStringPrefix` succeeds if and only if every rune of the string has a
code point at most 0xFF; on success the result has exactly one byte per
rune, byte i being rune i's code point; and a rune above 0xFF makes the
URL-level prefix handling return an error for a non-empty prefix query
parameter. -/
theorem c10_prefix_latin1_by_rune (s : String) :
    ((parseStringPrefix s).isSome ↔ ∀ r ∈ s.data, r.toNat ≤ 255) ∧
    (∀ b, parseStringPrefix s = some b →
      b.length = s.data.length ∧ b = s.data.map Char.toNat) ∧
    (0 < s.length → (∃ r ∈ s.data, 255 < r.toNat) → prefixFieldOfQuery s = none) := by
  refine ⟨?_, ?_, ?_⟩
  · unfold parseStringPrefix
    rw [parseStringPrefixLoop_eq]
    by_cases hall : ∀ r ∈ s.data, r.toNat ≤ 255
    · rw [if_pos hall]
      simpa using hall
    · rw [if_neg hall]
      simpa using hall
  · intro b hb
    unfold parseStringPrefix at hb
    rw [parseStringPrefixLoop_eq] at hb
    by_cases hall : ∀ r ∈ s.data, r.toNat ≤ 255
    · rw [if_pos hall] at hb
      rw [← Option.some.inj hb]
      exact ⟨by rw [List.length_map], rfl⟩
    · rw [if_neg hall] at hb
      exact absurd hb (by simp)
  · intro hlen hex
    unfold prefixFieldOfQuery
    rw [if_pos hlen]
    unfold parseStringPrefix
    rw [parseStringPrefixLoop_eq, if_neg (by push_neg; exact hex)]

/-- Witness for C10: an all-ASCII prefix parses; a prefix containing a
rune above 0xFF (here U+03C0) fails the whole prefix handling. -/
theorem c10_prefix_latin1_by_rune_witness :
    (parseStringPrefix "ab").isSome ∧ prefixFieldOfQuery "aπ" = none :=
  ⟨(c10_prefix_latin1_by_rune "ab").1.mpr (by decide),
   (c10_prefix_latin1_by_rune "aπ").2.2 (by decide) (by decide)⟩
